import Mathlib

/-!
Verification development for the tugboat-logdb pebble LogDB layer.

The Go sources under verification are the `db` methods of the pebble
package (logdb.go): `openRDB`, `hasEntryRecord`, `saveRaftState`,
`saveSnapshot`, `saveSnapshots`, `saveState`, `setMaxIndex`,
`saveMaxIndex`, `saveEntries`, `getMaxIndex`, `getState`,
`getBootstrapInfo`, `getSnapshot`, `listSnapshots`, `iterateEntries`,
`removeNodeData`, `removeEntriesTo`, `saveRemoveNodeData`.

The repository's cache (`cache.go`), key codec (`key.go`), KV wrapper
(`kv.go`) and entry managers (`plain.go`) are not part of the provided
sources; those collaborators are modelled from the specification
(sections 3, 4.3, 4.4 and 6 of spec.md) and are marked as such below.

Machine integers (uint64) are embedded as `Nat`; the only place where
the 64-bit bound matters for the verified claims is the
`math.MaxUint64` upper bound used by snapshot listing and ranged entry
removal, which is kept as the explicit constant `maxUint64` together
with a store well-formedness predicate bounding stored key components.

Go's mutable receiver (`*db`) becomes explicit state passing: every
method returns the post-state `db` next to its Go result.  A Go `error`
result becomes `GoRes`, whose third constructor records a call to
`plog.Panicf` / `MustUnmarshal` failure (process abort).
-/

/-- Error kinds surfaced by the layer: `noSavedLog` and
`noBootstrapInfo` are the raftio NotFound-kind sentinel errors;
`storageFailure` stands for any I/O failure of the embedded engine. -/
inductive DBError where
  | noSavedLog
  | noBootstrapInfo
  | storageFailure
deriving DecidableEq, Repr

/-- Result of a Go call: a value, a returned error, or a process abort
(`plog.Panicf` or a failed `MustUnmarshal`). -/
inductive GoRes (α : Type) where
  | ok (a : α)
  | err (e : DBError)
  | panicked
deriving DecidableEq, Repr

/-- pb.State: the persistent raft state record {Term, Vote, Commit}. -/
structure StateRec where
  term : Nat
  vote : Nat
  commit : Nat
deriving DecidableEq, Repr

/-- pb.State{} — the zero value; pb.IsEmptyState compares against it. -/
def emptyState : StateRec := ⟨0, 0, 0⟩

/-- pb.Snapshot metadata; only the index participates in the verified
logic (pb.IsEmptySnapshot tests Index == 0). -/
structure Snapshot where
  index : Nat
deriving DecidableEq, Repr

/-- pb.IsEmptySnapshot: a snapshot is empty iff its index is 0. -/
def isEmptySnapshot (ss : Snapshot) : Bool := ss.index == 0

/-- pb.Bootstrap record {Join, Type}. -/
structure Bootstrap where
  join : Bool
  smType : Nat
deriving DecidableEq, Repr

/-- pb.Entry; `index` is the log index, `esz` its serialized size used
by the iteration byte budget. -/
structure Entry where
  index : Nat
  esz : Nat
deriving DecidableEq, Repr

/-- pb.Update as consumed by saveRaftState / saveSnapshots. -/
structure Update where
  clusterID : Nat
  nodeID : Nat
  state : StateRec
  snapshot : Snapshot
  entriesToSave : List Entry
deriving DecidableEq, Repr

/-- Modelled from the spec: the key codec (key.go is not among the
provided sources).  Each record kind owns one key-space partition and a
key is the injective image of (kind, clusterID, nodeID, index?); the
codec's big-endian encoding makes lexicographic order equal numeric
order, which the model realizes by sorting extracted index lists
explicitly. -/
inductive RKey where
  | entry (clusterID nodeID index : Nat)
  | state (clusterID nodeID : Nat)
  | maxIndex (clusterID nodeID : Nat)
  | snapshot (clusterID nodeID index : Nat)
  | bootstrap (clusterID nodeID : Nat)
deriving DecidableEq, Repr

/-- A decoded stored value; `entryBatch` is the batched entry-manager
record format (multiple entries under the batch's first index key). -/
inductive RValue where
  | entry (e : Entry)
  | entryBatch (es : List Entry)
  | state (st : StateRec)
  | maxIndex (v : Nat)
  | snapshot (ss : Snapshot)
  | bootstrap (bs : Bootstrap)
deriving DecidableEq, Repr

/-- One staged operation of a pebble write batch. -/
inductive Mutation where
  | put (k : RKey) (v : RValue)
  | del (k : RKey)
deriving DecidableEq, Repr

/-- The entry-manager variant installed at open time (newPlainEntries
vs newBatchedEntries). -/
inductive EntryVariant where
  | plain
  | batched
deriving DecidableEq, Repr

/-- math.MaxUint64. -/
def maxUint64 : Nat := 2 ^ 64 - 1

/-! ### Association-list primitives for the store and the cache -/

/-- Lookup in an association list keyed by replica identity. -/
def alookup {β : Type} : List ((Nat × Nat) × β) → Nat × Nat → Option β
  | [], _ => none
  | p :: rest, q => if p.1 = q then some p.2 else alookup rest q

/-- Insert/overwrite in an association list keyed by replica identity. -/
def ainsert {β : Type} (m : List ((Nat × Nat) × β)) (k : Nat × Nat) (v : β) :
    List ((Nat × Nat) × β) :=
  (k, v) :: m.filter (fun p => p.1 ≠ k)

/-- Point lookup in the flat key-value store. -/
def kvGet : List (RKey × RValue) → RKey → Option RValue
  | [], _ => none
  | p :: rest, k => if p.1 = k then some p.2 else kvGet rest k

/-- Point put: the new binding replaces any previous one. -/
def kvPut (s : List (RKey × RValue)) (k : RKey) (v : RValue) :
    List (RKey × RValue) :=
  (k, v) :: s.filter (fun p => p.1 ≠ k)

/-- Point delete. -/
def kvDelete (s : List (RKey × RValue)) (k : RKey) : List (RKey × RValue) :=
  s.filter (fun p => p.1 ≠ k)

/-- Applying a single staged mutation to the store. -/
def applyMutation (s : List (RKey × RValue)) : Mutation → List (RKey × RValue)
  | .put k v => kvPut s k v
  | .del k => kvDelete s k

/-- Modelled from the spec (section 6): the embedded engine's atomic
multi-key write-batch commit applies every staged mutation in order in
one indivisible step. -/
def applyBatch (s : List (RKey × RValue)) (wb : List Mutation) :
    List (RKey × RValue) :=
  wb.foldl applyMutation s

/-! ### The replica cache, modelled from spec section 4.3
(cache.go is not among the provided sources). -/

/-- Modelled from the spec: the per-replica write cache holding the
last known max entry index, last persisted state and last persisted
snapshot index. -/
structure cache where
  maxIndexM : List ((Nat × Nat) × Nat)
  stateM : List ((Nat × Nat) × StateRec)
  snapshotM : List ((Nat × Nat) × Nat)
deriving DecidableEq, Repr

/-- newCache. -/
def newCache : cache := ⟨[], [], []⟩

/-- Modelled from the spec: `getMaxIndex(id) -> (index, found)`. -/
def cache.getMaxIndex (c : cache) (id : Nat × Nat) : Option Nat :=
  alookup c.maxIndexM id

/-- Modelled from the spec: `setMaxIndex(id, index)`, unconditional
overwrite. -/
def cache.setMaxIndex (c : cache) (id : Nat × Nat) (v : Nat) : cache :=
  { c with maxIndexM := ainsert c.maxIndexM id v }

/-- Modelled from the spec: `setState(id, state) -> changed` updates
the cache and returns true only if `state` differs from the cached
value or none is cached. -/
def cache.setState (c : cache) (id : Nat × Nat) (st : StateRec) : Bool × cache :=
  match alookup c.stateM id with
  | some st' =>
      if st' = st then (false, c)
      else (true, { c with stateM := ainsert c.stateM id st })
  | none => (true, { c with stateM := ainsert c.stateM id st })

/-- Modelled from the spec: `trySaveSnapshot(id, index) -> accepted`
records `index` and returns true only if it is strictly greater than
the currently recorded value (default 0). -/
def cache.trySaveSnapshot (c : cache) (id : Nat × Nat) (idx : Nat) : Bool × cache :=
  if (alookup c.snapshotM id).getD 0 < idx then
    (true, { c with snapshotM := ainsert c.snapshotM id idx })
  else (false, c)

/-- Modelled from the spec: unconditional overwrite of the cached
snapshot index (used by getSnapshot after a successful read). -/
def cache.setSnapshotIndex (c : cache) (id : Nat × Nat) (idx : Nat) : cache :=
  { c with snapshotM := ainsert c.snapshotM id idx }

/-! ### The db instance -/

/-- The db struct (logdb.go).  The key pool has no observable effect
and is omitted; the KV handle becomes the flat store plus fault flags
describing which engine primitives fail in the execution being
modelled (false everywhere for a fault-free engine). -/
structure db where
  cs : cache
  kvs : List (RKey × RValue)
  entries : EntryVariant
  iterateFails : Bool
  commitFails : Bool
  bulkRemoveFails : Bool
deriving DecidableEq, Repr

/-- hasEntryRecord (logdb.go): scans the whole entry key range and
reports whether any entry record exists. -/
def hasEntryRecord (s : List (RKey × RValue)) : Bool :=
  s.any fun p =>
    match p.1 with
    | .entry _ _ _ => true
    | _ => false

/-- Whether the store holds a batched-format entry record. -/
def holdsBatchedRecord (s : List (RKey × RValue)) : Bool :=
  s.any fun p =>
    match p.2 with
    | .entryBatch _ => true
    | _ => false

/-- openRDB (logdb.go): opens the engine over the existing content,
creates a fresh cache and key pool, and installs the entry manager —
the source installs `newPlainEntries` unconditionally (line 81). -/
def openRDB (store : List (RKey × RValue)) : db :=
  { cs := newCache
    kvs := store
    entries := EntryVariant.plain
    iterateFails := false
    commitFails := false
    bulkRemoveFails := false }

/-! ### Snapshot listing -/

/-- The (index, value) pairs stored under snapshot keys of the given
replica with index at most `bound`, in store order. -/
def snapPairs (s : List (RKey × RValue)) (cid nid bound : Nat) :
    List (Nat × RValue) :=
  s.filterMap fun p =>
    match p.1 with
    | .snapshot c n i =>
        if c = cid ∧ n = nid ∧ i ≤ bound then some (i, p.2) else none
    | _ => none

/-- Insertion into a list sorted ascending by the first component. -/
def insertPair {β : Type} (p : Nat × β) : List (Nat × β) → List (Nat × β)
  | [] => [p]
  | q :: rest => if p.1 ≤ q.1 then p :: q :: rest else q :: insertPair p rest

/-- Sort by first component ascending; realizes the codec's guarantee
that range iteration yields keys in increasing index order. -/
def sortPairs {β : Type} (l : List (Nat × β)) : List (Nat × β) :=
  l.foldr insertPair []

/-- Decoding the iterated snapshot values (pb.MustUnmarshal panics on
bytes that are not a snapshot record). -/
def decodeSnapList : List (Nat × RValue) → GoRes (List Snapshot)
  | [] => .ok []
  | (_, .snapshot ss) :: rest =>
      match decodeSnapList rest with
      | .ok l => .ok (ss :: l)
      | .err e => .err e
      | .panicked => .panicked
  | _ :: _ => .panicked

/-- listSnapshots (logdb.go): iterates the snapshot key range
[key(cid,nid,0), key(cid,nid,bound)] in ascending order collecting the
decoded snapshots; an engine iteration failure surfaces as an error. -/
def db.listSnapshots (r : db) (cid nid bound : Nat) : GoRes (List Snapshot) :=
  if r.iterateFails then .err .storageFailure
  else decodeSnapList (sortPairs (snapPairs r.kvs cid nid bound))

/-! ### Write-path methods -/

/-- saveState (logdb.go): skips the empty state, consults the cache,
and stages a state record only when the cache reports a change. -/
def db.saveState (r : db) (cid nid : Nat) (st : StateRec) (wb : List Mutation) :
    db × List Mutation :=
  if st = emptyState then (r, wb)
  else
    let p := r.cs.setState (cid, nid) st
    if p.1 then
      ({ r with cs := p.2 }, wb ++ [.put (.state cid nid) (.state st)])
    else ({ r with cs := p.2 }, wb)

/-- saveSnapshot (logdb.go): lists the stored snapshots of the
replica, stages a delete for every one with a strictly smaller index
than the new snapshot, then stages the put of the new record — all in
the caller's write batch. -/
def db.saveSnapshot (r : db) (wb : List Mutation) (ud : Update) :
    GoRes (List Mutation) :=
  if isEmptySnapshot ud.snapshot then .ok wb
  else
    match r.listSnapshots ud.clusterID ud.nodeID maxUint64 with
    | .err e => .err e
    | .panicked => .panicked
    | .ok snapshots =>
        let wb := snapshots.foldl
          (fun wb ss =>
            if ss.index < ud.snapshot.index then
              wb ++ [.del (.snapshot ud.clusterID ud.nodeID ss.index)]
            else wb) wb
        .ok (wb ++ [.put (.snapshot ud.clusterID ud.nodeID ud.snapshot.index)
                      (.snapshot ud.snapshot)])

/-- saveMaxIndex (logdb.go): stages the 8-byte big-endian max-index
record. -/
def saveMaxIndex (wb : List Mutation) (cid nid index : Nat) : List Mutation :=
  wb ++ [.put (.maxIndex cid nid) (.maxIndex index)]

/-- setMaxIndex (logdb.go): updates the cached max index and stages
its record. -/
def db.setMaxIndex (r : db) (wb : List Mutation) (ud : Update) (maxIndex : Nat) :
    db × List Mutation :=
  ({ r with cs := r.cs.setMaxIndex (ud.clusterID, ud.nodeID) maxIndex },
   saveMaxIndex wb ud.clusterID ud.nodeID maxIndex)

/-- Modelled from the spec: the plain entry manager's `record` (the
entry-manager sources are not provided) — one record per entry keyed
by its own index; returns the highest staged index (the last of the
already-ordered list) or 0 when nothing was staged. -/
def plainRecord (wb : List Mutation) (cid nid : Nat) (entries : List Entry) :
    List Mutation × Nat :=
  (wb ++ entries.map (fun e => .put (.entry cid nid e.index) (.entry e)),
   ((entries.getLast?).map (fun e => e.index)).getD 0)

/-- saveEntries (logdb.go): stages every update's entry list through
the entry manager and advances the max index when the returned value
is positive.  openRDB installs the plain manager, so the record call
resolves to `plainRecord`. -/
def db.saveEntries (r : db) (updates : List Update) (wb : List Mutation) :
    db × List Mutation :=
  match updates with
  | [] => (r, wb)
  | ud :: rest =>
      if ud.entriesToSave.length > 0 then
        let p := plainRecord wb ud.clusterID ud.nodeID ud.entriesToSave
        if p.2 > 0 then
          let q := r.setMaxIndex p.1 ud p.2
          q.1.saveEntries rest q.2
        else r.saveEntries rest p.1
      else r.saveEntries rest wb

/-- The fatal invariant check of saveRaftState (logdb.go lines
169-175): with a non-empty entry list, panic when the snapshot index
exceeds the last entry's index. -/
def entriesBelowSnapshot (ud : Update) : Bool :=
  match ud.entriesToSave.getLast? with
  | some e => e.index < ud.snapshot.index
  | none => false

/-- Intermediate outcome of the staging loop of saveRaftState:
`cont` reaches the commit point, `earlyOk` is the `return nil` taken
on a saveSnapshot error (line 178), `panicked` is the plog.Panicf
abort. -/
inductive StageOut where
  | cont (r : db) (wb : List Mutation)
  | earlyOk (r : db)
  | panicked
deriving DecidableEq, Repr

/-- The per-update loop of saveRaftState (logdb.go lines 165-182). -/
def stageUpdates (r : db) (wb : List Mutation) : List Update → StageOut
  | [] => .cont r wb
  | ud :: rest =>
      let p1 := r.saveState ud.clusterID ud.nodeID ud.state wb
      let r := p1.1
      let wb := p1.2
      if isEmptySnapshot ud.snapshot then stageUpdates r wb rest
      else
        let p2 := r.cs.trySaveSnapshot (ud.clusterID, ud.nodeID) ud.snapshot.index
        let r := { r with cs := p2.2 }
        if p2.1 then
          if entriesBelowSnapshot ud then .panicked
          else
            match r.saveSnapshot wb ud with
            | .err _ => .earlyOk r
            | .panicked => .panicked
            | .ok wb =>
                let p3 := r.setMaxIndex wb ud ud.snapshot.index
                stageUpdates p3.1 p3.2 rest
        else stageUpdates r wb rest

/-- CommitWriteBatch of the engine: atomic, so on failure nothing of
the batch is applied. -/
def db.commitWriteBatch (r : db) (wb : List Mutation) : db × GoRes Unit :=
  if r.commitFails then (r, .err .storageFailure)
  else ({ r with kvs := applyBatch r.kvs wb }, .ok ())

/-- saveRaftState (logdb.go lines 163-188): stages states, snapshots
and entries into one write batch and commits it only when non-empty;
note the `return nil` taken when saveSnapshot fails. -/
def db.saveRaftState (r : db) (updates : List Update) : db × GoRes Unit :=
  match stageUpdates r [] updates with
  | .panicked => (r, .panicked)
  | .earlyOk r => (r, .ok ())
  | .cont r wb =>
      let p := r.saveEntries updates wb
      if p.2.length > 0 then p.1.commitWriteBatch p.2
      else (p.1, .ok ())

/-- Loop outcome of saveSnapshots, mirroring `StageOut` plus the
`toSave` flag. -/
inductive SnapLoopOut where
  | cont (r : db) (wb : List Mutation) (toSave : Bool)
  | earlyOk (r : db)
  | panicked
deriving DecidableEq, Repr

/-- The per-update loop of saveSnapshots (logdb.go lines 334-342);
the `return nil` on a saveSnapshot error is at line 338. -/
def snapshotsLoop (r : db) (wb : List Mutation) (toSave : Bool) :
    List Update → SnapLoopOut
  | [] => .cont r wb toSave
  | ud :: rest =>
      if isEmptySnapshot ud.snapshot then snapshotsLoop r wb toSave rest
      else
        let p := r.cs.trySaveSnapshot (ud.clusterID, ud.nodeID) ud.snapshot.index
        let r := { r with cs := p.2 }
        if p.1 then
          match r.saveSnapshot wb ud with
          | .err _ => .earlyOk r
          | .panicked => .panicked
          | .ok wb => snapshotsLoop r wb true rest
        else snapshotsLoop r wb toSave rest

/-- saveSnapshots (logdb.go lines 330-347). -/
def db.saveSnapshots (r : db) (updates : List Update) : db × GoRes Unit :=
  match snapshotsLoop r [] false updates with
  | .panicked => (r, .panicked)
  | .earlyOk r => (r, .ok ())
  | .cont r wb toSave =>
      if toSave then r.commitWriteBatch wb else (r, .ok ())

/-! ### Read-path methods -/

/-- getMaxIndex (logdb.go lines 386-404): cache first, then a storage
read translating the empty value into raftio.ErrNoSavedLog.  Note the
source never writes the fallback result into the cache, hence the
returned db equals the receiver in every branch. -/
def db.getMaxIndex (r : db) (cid nid : Nat) : db × GoRes Nat :=
  match r.cs.getMaxIndex (cid, nid) with
  | some v => (r, .ok v)
  | none =>
      match kvGet r.kvs (.maxIndex cid nid) with
      | none => (r, .err .noSavedLog)
      | some (.maxIndex v) => (r, .ok v)
      | some _ => (r, .panicked)

/-- getState (logdb.go lines 406-421). -/
def db.getState (r : db) (cid nid : Nat) : db × GoRes StateRec :=
  match kvGet r.kvs (.state cid nid) with
  | none => (r, .err .noSavedLog)
  | some (.state st) => (r, .ok st)
  | some _ => (r, .panicked)

/-- getBootstrapInfo (logdb.go lines 313-328). -/
def db.getBootstrapInfo (r : db) (cid nid : Nat) : db × GoRes Bootstrap :=
  match kvGet r.kvs (.bootstrap cid nid) with
  | none => (r, .err .noBootstrapInfo)
  | some (.bootstrap bs) => (r, .ok bs)
  | some _ => (r, .panicked)

/-- getSnapshot (logdb.go lines 349-360): the latest stored snapshot,
or the zero snapshot with a nil error when none is stored. -/
def db.getSnapshot (r : db) (cid nid : Nat) : db × GoRes Snapshot :=
  match r.listSnapshots cid nid maxUint64 with
  | .err e => (r, .err e)
  | .panicked => (r, .panicked)
  | .ok snapshots =>
      match snapshots.getLast? with
      | some ss =>
          ({ r with cs := r.cs.setSnapshotIndex (cid, nid) ss.index }, .ok ss)
      | none => (r, .ok { index := 0 })

/-- The (index, value) pairs stored under entry keys of the replica
with index in [lo, hi), in store order. -/
def entryPairs (s : List (RKey × RValue)) (cid nid lo hi : Nat) :
    List (Nat × RValue) :=
  s.filterMap fun p =>
    match p.1 with
    | .entry c n i =>
        if c = cid ∧ n = nid ∧ lo ≤ i ∧ i < hi then some (i, p.2) else none
    | _ => none

/-- Decoding iterated plain entry values (MustUnmarshal panics on
records that are not single entries). -/
def decodeEntryList : List (Nat × RValue) → GoRes (List Entry)
  | [] => .ok []
  | (_, .entry e) :: rest =>
      match decodeEntryList rest with
      | .ok l => .ok (e :: l)
      | .err x => .err x
      | .panicked => .panicked
  | _ :: _ => .panicked

/-- Modelled from the spec (section 4.4): the byte budget of entry
iteration — stop before exceeding `maxSize`, but always keep the first
entry of the range. -/
def budgetLoop (taken : Bool) (ents : List Entry) (size maxSize : Nat) :
    List Entry → List Entry × Nat
  | [] => (ents, size)
  | e :: rest =>
      if taken ∧ maxSize < size + e.esz then (ents, size)
      else budgetLoop true (ents ++ [e]) (size + e.esz) maxSize rest

/-- Modelled from the spec: the plain entry manager's `iterate` (the
entry-manager sources are not provided) — ascending entries of
[low, min(high, maxIndex+1)) appended to the caller's accumulator
under the byte budget; an empty range yields the accumulator unchanged
with no error. -/
def plainIterate (s : List (RKey × RValue)) (ents : List Entry)
    (maxIndex size cid nid low high maxSize : Nat) :
    GoRes (List Entry × Nat) :=
  match decodeEntryList (sortPairs (entryPairs s cid nid low (min high (maxIndex + 1)))) with
  | .err e => .err e
  | .panicked => .panicked
  | .ok found => .ok (budgetLoop false ents size maxSize found)

/-- iterateEntries (logdb.go lines 482-498): the ErrNoSavedLog result
of the max-index lookup short-circuits into an empty successful
result; other lookup errors propagate (wrapped); otherwise the entry
manager iterates. -/
def db.iterateEntries (r : db) (ents : List Entry)
    (size cid nid low high maxSize : Nat) : db × GoRes (List Entry × Nat) :=
  match r.getMaxIndex cid nid with
  | (r, .err .noSavedLog) => (r, .ok (ents, size))
  | (r, .err e) => (r, .err e)
  | (r, .panicked) => (r, .panicked)
  | (r, .ok maxIndex) =>
      (r, plainIterate r.kvs ents maxIndex size cid nid low high maxSize)

/-! ### Removal -/

/-- saveRemoveNodeData (logdb.go lines 446-462): stages the deletes of
the state, bootstrap and max-index records and of every listed
snapshot record. -/
def saveRemoveNodeData (wb : List Mutation) (snapshots : List Snapshot)
    (cid nid : Nat) : List Mutation :=
  wb ++ [.del (.state cid nid), .del (.bootstrap cid nid), .del (.maxIndex cid nid)]
     ++ snapshots.map (fun ss => .del (.snapshot cid nid ss.index))

/-- The pairs surviving the ranged entry deletion of the plain entry
manager's rangedOp (modelled from the spec: the computed key range
covers exactly the entries of the replica at or below `index`). -/
def keptAfterEntryRemoval (cid nid index : Nat) (p : RKey × RValue) : Bool :=
  match p.1 with
  | .entry c n i => ¬(c = cid ∧ n = nid ∧ i ≤ index)
  | _ => true

/-- removeEntriesTo (logdb.go lines 423-429) through the plain entry
manager's rangedOp and the engine's BulkRemoveEntries. -/
def db.removeEntriesTo (r : db) (cid nid index : Nat) : db × GoRes Unit :=
  if r.bulkRemoveFails then (r, .err .storageFailure)
  else
    ({ r with kvs := r.kvs.filter (keptAfterEntryRemoval cid nid index) }, .ok ())

/-- removeNodeData (logdb.go lines 431-444): one atomic batch deleting
the metadata records, then the cache reset, then the separate ranged
entry removal. -/
def db.removeNodeData (r : db) (cid nid : Nat) : db × GoRes Unit :=
  match r.listSnapshots cid nid maxUint64 with
  | .err e => (r, .err e)
  | .panicked => (r, .panicked)
  | .ok snapshots =>
      let wb := saveRemoveNodeData [] snapshots cid nid
      match r.commitWriteBatch wb with
      | (r, .err e) => (r, .err e)
      | (r, .panicked) => (r, .panicked)
      | (r, .ok _) =>
          let r := { r with cs := r.cs.setMaxIndex (cid, nid) 0 }
          r.removeEntriesTo cid nid maxUint64

/-! ### Store well-formedness

Reachable stores satisfy: a snapshot key holds a snapshot record whose
index equals the key's index component, and every stored entry or
snapshot index fits in a uint64 (all key components come from uint64
fields of the Go program). -/

/-- Well-formedness of one stored pair. -/
def pairWF (p : RKey × RValue) : Bool :=
  match p.1, p.2 with
  | .snapshot _ _ i, .snapshot ss => ss.index == i && decide (i ≤ maxUint64)
  | .snapshot _ _ _, _ => false
  | .entry _ _ i, _ => decide (i ≤ maxUint64)
  | _, _ => true

/-- Well-formedness of a store. -/
def storeWF (s : List (RKey × RValue)) : Bool := s.all pairWF

/-- Presence of a snapshot record key. -/
def hasSnapKey (s : List (RKey × RValue)) (cid nid i : Nat) : Bool :=
  s.any fun p => decide (p.1 = RKey.snapshot cid nid i)

/-! ### Concrete inputs used by the claim counterexamples and witnesses -/

/-- An update staging nothing: empty state, empty snapshot, no
entries. -/
def udNoop : Update :=
  { clusterID := 1, nodeID := 1, state := emptyState, snapshot := ⟨0⟩,
    entriesToSave := [] }

/-- The db of the C2 failing input: a fault during storage iteration. -/
def dbC2 : db := { openRDB [] with iterateFails := true }

/-- The update of the C2 failing input: a fresh non-empty snapshot. -/
def udC2 : Update :=
  { clusterID := 1, nodeID := 1, state := emptyState, snapshot := ⟨5⟩,
    entriesToSave := [] }

/-- The db of the C5 witness: state ⟨2,1,3⟩ already cached. -/
def dbC5 : db :=
  { openRDB [] with cs := { newCache with stateM := [((1, 1), ⟨2, 1, 3⟩)] } }

/-- A store holding a batched-format entry record. -/
def storeB : List (RKey × RValue) :=
  [(.entry 1 1 1, .entryBatch [⟨1, 1⟩, ⟨2, 1⟩])]

/-- The C3 witness update carrying entries below its snapshot. -/
def udBelow : Update :=
  { clusterID := 1, nodeID := 1, state := emptyState, snapshot := ⟨5⟩,
    entriesToSave := [⟨3, 1⟩] }

/-- The C3 witness update whose last entry reaches the snapshot
index. -/
def udAtOrAbove : Update :=
  { clusterID := 1, nodeID := 1, state := emptyState, snapshot := ⟨5⟩,
    entriesToSave := [⟨7, 1⟩] }

/-- The C4 witness update: a fresh snapshot at index 7. -/
def udC4 : Update :=
  { clusterID := 1, nodeID := 1, state := emptyState, snapshot := ⟨7⟩,
    entriesToSave := [] }

/-- The populated replica store used by the removal claims. -/
def sC8 : List (RKey × RValue) :=
  [(.state 1 1, .state ⟨2, 1, 3⟩), (.bootstrap 1 1, .bootstrap ⟨true, 1⟩),
   (.maxIndex 1 1, .maxIndex 4), (.snapshot 1 1 3, .snapshot ⟨3⟩),
   (.entry 1 1 3, .entry ⟨3, 10⟩), (.entry 1 1 4, .entry ⟨4, 10⟩)]

/-- The C10 witness db: the same populated store with a failing bulk
entry removal. -/
def dbC10 : db := { openRDB sC8 with bulkRemoveFails := true }

/-! ### Helper lemmas -/

theorem alookup_ainsert {β : Type} (m : List ((Nat × Nat) × β)) (k : Nat × Nat) (v : β) :
    alookup (ainsert m k v) k = some v := by
  simp [ainsert, alookup]

theorem mem_kvDelete {s : List (RKey × RValue)} {k : RKey} {p : RKey × RValue} :
    p ∈ kvDelete s k ↔ p ∈ s ∧ p.1 ≠ k := by
  simp [kvDelete]

theorem kvGet_eq_none {s : List (RKey × RValue)} {k : RKey} :
    kvGet s k = none ↔ ∀ v, (k, v) ∉ s := by
  induction s with
  | nil => simp [kvGet]
  | cons p rest ih =>
      obtain ⟨k', v'⟩ := p
      by_cases h : k' = k
      · subst h
        simp [kvGet]
        exact ⟨v', fun h => absurd rfl h⟩
      · simp [kvGet, h, ih, Ne.symm h]

theorem mem_applyBatch_dels (ks : List RKey) :
    ∀ (s : List (RKey × RValue)) (p : RKey × RValue),
      p ∈ applyBatch s (ks.map Mutation.del) ↔ p ∈ s ∧ p.1 ∉ ks := by
  induction ks with
  | nil => simp [applyBatch]
  | cons k rest ih =>
      intro s p
      have h : applyBatch s ((k :: rest).map Mutation.del)
          = applyBatch (kvDelete s k) (rest.map Mutation.del) := rfl
      rw [h, ih, mem_kvDelete]
      simp
      tauto

theorem mem_insertPair {β : Type} {p q : Nat × β} {l : List (Nat × β)} :
    p ∈ insertPair q l ↔ p = q ∨ p ∈ l := by
  induction l with
  | nil => simp [insertPair]
  | cons a rest ih =>
      simp only [insertPair]
      split
      · simp
      · simp [ih]
        tauto

theorem mem_sortPairs {β : Type} {p : Nat × β} {l : List (Nat × β)} :
    p ∈ sortPairs l ↔ p ∈ l := by
  induction l with
  | nil => simp [sortPairs]
  | cons a rest ih =>
      simp only [sortPairs, List.foldr] at *
      rw [mem_insertPair, ih]
      simp

theorem mem_snapPairs {s : List (RKey × RValue)} {cid nid bound i : Nat} {v : RValue} :
    (i, v) ∈ snapPairs s cid nid bound ↔
      (RKey.snapshot cid nid i, v) ∈ s ∧ i ≤ bound := by
  simp only [snapPairs, List.mem_filterMap]
  constructor
  · rintro ⟨⟨k, v'⟩, hmem, hf⟩
    cases k <;> simp at hf
    rename_i c n j
    rcases hf with ⟨⟨hc, hn, hb⟩, hi, hv⟩
    subst hc; subst hn; subst hi; subst hv
    exact ⟨hmem, hb⟩
  · rintro ⟨hmem, hb⟩
    refine ⟨(RKey.snapshot cid nid i, v), hmem, ?_⟩
    simp [hb]

theorem decodeSnapList_map_eq {l : List (Nat × RValue)} {out : List Snapshot} :
    decodeSnapList l = .ok out → l.map Prod.snd = out.map RValue.snapshot := by
  induction l generalizing out with
  | nil => intro h; cases h; simp
  | cons p rest ih =>
      obtain ⟨i, v⟩ := p
      cases v <;> simp only [decodeSnapList] <;> intro h <;> try cases h
      rename_i ss
      revert h
      cases hrest : decodeSnapList rest with
      | ok l' => intro h; cases h; simp [ih hrest]
      | err e => intro h; cases h
      | panicked => intro h; cases h

theorem decodeSnapList_ok_of_kinds {l : List (Nat × RValue)} :
    (∀ p ∈ l, ∃ ss, p.2 = RValue.snapshot ss) →
    ∃ out, decodeSnapList l = .ok out := by
  induction l with
  | nil => intro _; exact ⟨[], rfl⟩
  | cons p rest ih =>
      intro h
      obtain ⟨i, v⟩ := p
      obtain ⟨ss, hv⟩ := h (i, v) (List.mem_cons_self _ _)
      simp at hv
      subst hv
      obtain ⟨out, hout⟩ := ih (fun q hq => h q (List.mem_cons_of_mem _ hq))
      exact ⟨ss :: out, by simp [decodeSnapList, hout]⟩

theorem hasSnapKey_iff {s : List (RKey × RValue)} {cid nid i : Nat} :
    hasSnapKey s cid nid i = true ↔ ∃ v, (RKey.snapshot cid nid i, v) ∈ s := by
  simp only [hasSnapKey, List.any_eq_true, decide_eq_true_eq]
  constructor
  · rintro ⟨⟨k, v⟩, hmem, hk⟩
    simp at hk
    subst hk
    exact ⟨v, hmem⟩
  · rintro ⟨v, hmem⟩
    exact ⟨(RKey.snapshot cid nid i, v), hmem, rfl⟩

theorem storeWF_snapshot_value {s : List (RKey × RValue)} {cid nid i : Nat} {v : RValue}
    (hwf : storeWF s = true) (hmem : (RKey.snapshot cid nid i, v) ∈ s) :
    ∃ ss, v = RValue.snapshot ss ∧ ss.index = i ∧ i ≤ maxUint64 := by
  have h := (List.all_eq_true.mp hwf) _ hmem
  cases v <;> simp [pairWF] at h
  rename_i ss
  exact ⟨ss, rfl, h.1, h.2⟩

theorem storeWF_entry_bound {s : List (RKey × RValue)} {cid nid i : Nat} {v : RValue}
    (hwf : storeWF s = true) (hmem : (RKey.entry cid nid i, v) ∈ s) :
    i ≤ maxUint64 := by
  have h := (List.all_eq_true.mp hwf) _ hmem
  simpa [pairWF] using h

/-- With a well-formed store, the snapshot listing succeeds and its
result lists exactly the stored snapshot indices of the replica (up to
the bound). -/
theorem listSnapshots_ok_of_wf (r : db) (cid nid bound : Nat)
    (hio : r.iterateFails = false) (hwf : storeWF r.kvs = true) :
    ∃ out, r.listSnapshots cid nid bound = .ok out ∧
      ∀ i, (∃ ss ∈ out, ss.index = i) ↔
        (hasSnapKey r.kvs cid nid i = true ∧ i ≤ bound) := by
  have hkinds : ∀ p ∈ sortPairs (snapPairs r.kvs cid nid bound),
      ∃ ss, p.2 = RValue.snapshot ss := by
    rintro ⟨i, v⟩ hp
    rw [mem_sortPairs] at hp
    obtain ⟨hmem, _⟩ := mem_snapPairs.mp hp
    obtain ⟨ss, hv, _, _⟩ := storeWF_snapshot_value hwf hmem
    exact ⟨ss, hv⟩
  obtain ⟨out, hout⟩ := decodeSnapList_ok_of_kinds hkinds
  refine ⟨out, by simp [db.listSnapshots, hio, hout], ?_⟩
  have hmapeq := decodeSnapList_map_eq hout
  intro i
  constructor
  · rintro ⟨ss, hss, hidx⟩
    have : RValue.snapshot ss ∈ (sortPairs (snapPairs r.kvs cid nid bound)).map Prod.snd := by
      rw [hmapeq]
      exact List.mem_map_of_mem _ hss
    obtain ⟨⟨j, v⟩, hpmem, hv⟩ := List.mem_map.mp this
    simp at hv
    subst hv
    rw [mem_sortPairs] at hpmem
    obtain ⟨hmem, hb⟩ := mem_snapPairs.mp hpmem
    obtain ⟨ss', hv', hidx', hb'⟩ := storeWF_snapshot_value hwf hmem
    have hss' : ss' = ss := by injection hv' with h; exact h.symm
    subst hss'
    have hij : i = j := by rw [← hidx, hidx']
    subst hij
    exact ⟨hasSnapKey_iff.mpr ⟨_, hmem⟩, hb⟩
  · rintro ⟨hkey, hb⟩
    obtain ⟨v, hmem⟩ := hasSnapKey_iff.mp hkey
    obtain ⟨ss, hv, hidx, _⟩ := storeWF_snapshot_value hwf hmem
    subst hv
    have hp : (i, RValue.snapshot ss) ∈ sortPairs (snapPairs r.kvs cid nid bound) := by
      rw [mem_sortPairs, mem_snapPairs]
      exact ⟨hmem, hb⟩
    have : RValue.snapshot ss ∈ out.map RValue.snapshot := by
      rw [← hmapeq]
      exact List.mem_map_of_mem _ hp
    obtain ⟨ss', hss', hv'⟩ := List.mem_map.mp this
    have heq : ss' = ss := by injection hv'
    subst heq
    exact ⟨ss', hss', hidx⟩

theorem snapshot_foldl_dels (idx : Nat) (cid nid : Nat) (l : List Snapshot) :
    ∀ wb, l.foldl
        (fun wb ss =>
          if ss.index < idx then wb ++ [Mutation.del (.snapshot cid nid ss.index)]
          else wb) wb
      = wb ++ l.filterMap
          (fun ss => if ss.index < idx then
            some (Mutation.del (.snapshot cid nid ss.index)) else none) := by
  induction l with
  | nil => simp
  | cons ss rest ih =>
      intro wb
      simp only [List.foldl, List.filterMap_cons]
      by_cases h : ss.index < idx
      · simp [h, ih]
      · simp [h, ih]

theorem filterMap_if_all {α β : Type} (c : α → Prop) [DecidablePred c] (g : α → β)
    (l : List α) (hall : ∀ a ∈ l, c a) :
    l.filterMap (fun a => if c a then some (g a) else none) = l.map g := by
  induction l with
  | nil => simp
  | cons a rest ih =>
      have hc := hall a (List.mem_cons_self _ _)
      simp [List.filterMap_cons, hc, ih (fun b hb => hall b (List.mem_cons_of_mem _ hb))]

/-! Preservation: the staging path only mutates the cache and the
write batch; the store and all flags are untouched until commit. -/

theorem saveState_cs_only (r : db) (cid nid : Nat) (st : StateRec) (wb : List Mutation) :
    ∃ c, (r.saveState cid nid st wb).1 = { r with cs := c } := by
  simp only [db.saveState]
  split
  · exact ⟨r.cs, rfl⟩
  · split <;> exact ⟨_, rfl⟩

theorem saveState_snapshotM (r : db) (cid nid : Nat) (st : StateRec) (wb : List Mutation) :
    ((r.saveState cid nid st wb).1).cs.snapshotM = r.cs.snapshotM := by
  simp only [db.saveState, cache.setState]
  split
  · rfl
  · cases h : alookup r.cs.stateM (cid, nid) with
    | none => simp [h]
    | some st' =>
        by_cases he : st' = st <;> simp [h, he]

theorem saveEntries_cs_only (us : List Update) :
    ∀ (r : db) (wb : List Mutation), ∃ c wb', r.saveEntries us wb = ({ r with cs := c }, wb') := by
  induction us with
  | nil => intro r wb; exact ⟨r.cs, wb, rfl⟩
  | cons ud rest ih =>
      intro r wb
      simp only [db.saveEntries]
      split
      · split
        · obtain ⟨c, wb', h⟩ := ih _ _
          exact ⟨c, wb', h⟩
        · exact ih _ _
      · exact ih _ _

theorem stageUpdates_cs_only (us : List Update) :
    ∀ (r : db) (wb : List Mutation),
      (∀ r2 wb2, stageUpdates r wb us = .cont r2 wb2 → ∃ c, r2 = { r with cs := c }) ∧
      (∀ r2, stageUpdates r wb us = .earlyOk r2 → ∃ c, r2 = { r with cs := c }) := by
  induction us with
  | nil =>
      intro r wb
      constructor
      · intro r2 wb2 h
        cases h
        exact ⟨r.cs, rfl⟩
      · intro r2 h
        cases h
  | cons ud rest ih =>
      intro r wb
      obtain ⟨c1, hc1⟩ := saveState_cs_only r ud.clusterID ud.nodeID ud.state wb
      constructor
      · intro r2 wb2 h
        simp only [stageUpdates] at h
        rw [hc1] at h
        split at h
        · obtain ⟨c, hc⟩ := (ih _ _).1 _ _ h
          exact ⟨c, hc⟩
        · split at h
          · split at h
            · cases h
            · split at h
              · cases h
              · cases h
              · rename_i wb3 _
                obtain ⟨c, hc⟩ := (ih _ _).1 _ _ h
                exact ⟨c, hc⟩
          · obtain ⟨c, hc⟩ := (ih _ _).1 _ _ h
            exact ⟨c, hc⟩
      · intro r2 h
        simp only [stageUpdates] at h
        rw [hc1] at h
        split at h
        · obtain ⟨c, hc⟩ := (ih _ _).2 _ h
          exact ⟨c, hc⟩
        · split at h
          · split at h
            · cases h
            · split at h
              · cases h
                exact ⟨_, rfl⟩
              · cases h
              · obtain ⟨c, hc⟩ := (ih _ _).2 _ h
                exact ⟨c, hc⟩
          · obtain ⟨c, hc⟩ := (ih _ _).2 _ h
            exact ⟨c, hc⟩

/-! ### Claim theorems -/

/-- C1: saveRaftState commits the staged batch atomically only when it
is non-empty; an empty batch is a successful no-op leaving the store
untouched, and the store after any call is either unchanged or the
result of applying one whole staged batch, never a strict prefix of
its mutations. -/
theorem saveRaftState_empty_batch_noop_and_atomic (r r2 : db) (us : List Update)
    (wb : List Mutation) :
    (stageUpdates r [] us = .cont r2 wb → (r2.saveEntries us wb).2 = [] →
      r.saveRaftState us = ((r2.saveEntries us wb).1, .ok ()) ∧
      ((r2.saveEntries us wb).1).kvs = r.kvs) ∧
    ((r.saveRaftState us).1.kvs = r.kvs ∨
      ∃ wb2, 0 < wb2.length ∧ (r.saveRaftState us).1.kvs = applyBatch r.kvs wb2) := by
  constructor
  · intro hst hwb
    have hkvs2 : r2.kvs = r.kvs := by
      obtain ⟨c, hc⟩ := (stageUpdates_cs_only us r []).1 r2 wb hst
      rw [hc]
    constructor
    · simp only [db.saveRaftState, hst, hwb]
      simp
    · obtain ⟨c2, wb3, hse⟩ := saveEntries_cs_only us r2 wb
      rw [hse]
      exact hkvs2
  · cases hst : stageUpdates r [] us with
    | panicked => left; simp [db.saveRaftState, hst]
    | earlyOk r3 =>
        left
        obtain ⟨c, hc⟩ := (stageUpdates_cs_only us r []).2 r3 hst
        simp [db.saveRaftState, hst, hc]
    | cont r3 wb3 =>
        obtain ⟨c, hc⟩ := (stageUpdates_cs_only us r []).1 r3 wb3 hst
        obtain ⟨c2, wb4, hse⟩ := saveEntries_cs_only us r3 wb3
        have hkvs3 : r3.kvs = r.kvs := by rw [hc]
        by_cases hlen : wb4.length > 0
        · by_cases hcf : r.commitFails
          · left
            have : r3.commitFails = true := by rw [hc]; exact hcf
            simp [db.saveRaftState, hst, hse, hlen, db.commitWriteBatch, this, hkvs3]
          · right
            refine ⟨wb4, hlen, ?_⟩
            have : r3.commitFails = false := by rw [hc]; simpa using hcf
            simp [db.saveRaftState, hst, hse, hlen, db.commitWriteBatch, this, hkvs3]
        · left
          simp [db.saveRaftState, hst, hse, hlen, hkvs3]

/-- Witness for C1 at a concrete no-op update. -/
theorem saveRaftState_empty_batch_noop_witness :
    (openRDB []).saveRaftState [udNoop] = (openRDB [], .ok ()) ∧
    ((openRDB []).saveRaftState [udNoop]).1.kvs = (openRDB []).kvs := by
  have h := (saveRaftState_empty_batch_noop_and_atomic (openRDB []) (openRDB [])
    [udNoop] []).1 rfl rfl
  exact ⟨h.1, by rw [h.1]; exact h.2⟩

/-- C2 (code bug): on the failing input the snapshot-persistence step
fails with a storage error (listSnapshots returns it), yet both
saveRaftState and saveSnapshots return success — the sources execute
`return nil` on the non-nil saveSnapshot error — and nothing was
committed. -/
theorem saveRaftState_swallows_snapshot_error :
    dbC2.listSnapshots 1 1 maxUint64 = .err .storageFailure ∧
    (dbC2.saveRaftState [udC2]).2 = .ok () ∧
    (dbC2.saveSnapshots [udC2]).2 = .ok () ∧
    (dbC2.saveRaftState [udC2]).1.kvs = dbC2.kvs :=
  ⟨rfl, rfl, rfl, rfl⟩

/-- C5: state persistence is cache-deduplicated — nothing is staged
when the cached state equals the new value, a record is staged when it
differs or none is cached, and a repeated call with the same state is
the identity. -/
theorem saveState_suppresses_duplicate_state (r : db) (cid nid : Nat) (st : StateRec)
    (wb : List Mutation) (hne : st ≠ emptyState) :
    (alookup r.cs.stateM (cid, nid) = some st → r.saveState cid nid st wb = (r, wb)) ∧
    ((∀ st', alookup r.cs.stateM (cid, nid) = some st' → st' ≠ st) →
      (r.saveState cid nid st wb).2 = wb ++ [.put (.state cid nid) (.state st)]) ∧
    ((r.saveState cid nid st wb).1.saveState cid nid st (r.saveState cid nid st wb).2
      = r.saveState cid nid st wb) := by
  refine ⟨?_, ?_, ?_⟩
  · intro h
    simp [db.saveState, hne, cache.setState, h]
  · intro h
    cases hl : alookup r.cs.stateM (cid, nid) with
    | none => simp [db.saveState, hne, cache.setState, hl]
    | some st' =>
        have hne' : st' ≠ st := h st' hl
        simp [db.saveState, hne, cache.setState, hl, hne']
  · cases hl : alookup r.cs.stateM (cid, nid) with
    | none =>
        simp only [db.saveState, if_neg hne, cache.setState, hl]
        simp [db.saveState, if_neg hne, cache.setState, alookup_ainsert]
    | some st' =>
        by_cases he : st' = st
        · subst he
          simp [db.saveState, hne, cache.setState, hl]
        · simp only [db.saveState, if_neg hne, cache.setState, hl, if_neg he]
          simp [db.saveState, if_neg hne, cache.setState, alookup_ainsert]

/-- Witness for C5: a second save of the cached state stages nothing. -/
theorem saveState_suppresses_duplicate_state_witness :
    dbC5.saveState 1 1 ⟨2, 1, 3⟩ [] = (dbC5, []) ∧
    (dbC5.saveState 1 1 ⟨2, 1, 3⟩ []).1.saveState 1 1 ⟨2, 1, 3⟩
        (dbC5.saveState 1 1 ⟨2, 1, 3⟩ []).2
      = dbC5.saveState 1 1 ⟨2, 1, 3⟩ [] := by
  have h := saveState_suppresses_duplicate_state dbC5 1 1 ⟨2, 1, 3⟩ [] (by decide)
  exact ⟨h.1 rfl, h.2.2⟩

/-- C6 (counterexample): the cache misses, the storage fallback read
succeeds with 5, yet the cache after the call still has no entry for
the replica — getMaxIndex never writes the fallback result back, so
the next call reads storage again. -/
theorem getMaxIndex_no_writeback_cex :
    (openRDB [(.maxIndex 1 1, .maxIndex 5)]).getMaxIndex 1 1
      = (openRDB [(.maxIndex 1 1, .maxIndex 5)], .ok 5) ∧
    ((openRDB [(.maxIndex 1 1, .maxIndex 5)]).getMaxIndex 1 1).1.cs.getMaxIndex (1, 1)
      = none :=
  ⟨rfl, rfl⟩

/-- C6 (amended): on a cache miss getMaxIndex falls back to the
storage read and returns the stored value, but leaves the db — and in
particular the cache — unchanged. -/
theorem getMaxIndex_fallback_returns_stored (r : db) (cid nid v : Nat)
    (hmiss : r.cs.getMaxIndex (cid, nid) = none)
    (hstore : kvGet r.kvs (.maxIndex cid nid) = some (.maxIndex v)) :
    r.getMaxIndex cid nid = (r, .ok v) := by
  simp [db.getMaxIndex, hmiss, hstore]

/-- Witness for the amended C6. -/
theorem getMaxIndex_fallback_returns_stored_witness :
    (openRDB [(.maxIndex 2 3, .maxIndex 9)]).getMaxIndex 2 3
      = (openRDB [(.maxIndex 2 3, .maxIndex 9)], .ok 9) :=
  getMaxIndex_fallback_returns_stored _ 2 3 9 rfl rfl

/-- C7 (counterexample): openRDB opens a store holding batched-format
content with the plain entry manager — the source installs
newPlainEntries unconditionally and never consults the content. -/
theorem openRDB_plain_on_batched_content_cex :
    holdsBatchedRecord storeB = true ∧
    (openRDB storeB).entries = EntryVariant.plain :=
  ⟨rfl, rfl⟩

/-- C7 (amended): the entry-manager variant is selected exactly once
at open time and never changes afterwards, but it is not detected from
the existing content: openRDB installs the plain manager for every
store. -/
theorem openRDB_selects_plain_always (s : List (RKey × RValue)) (r : db)
    (us : List Update) :
    (openRDB s).entries = EntryVariant.plain ∧
    ((r.saveRaftState us).1).entries = r.entries := by
  refine ⟨rfl, ?_⟩
  cases hst : stageUpdates r [] us with
  | panicked => simp [db.saveRaftState, hst]
  | earlyOk r3 =>
      obtain ⟨c, hc⟩ := (stageUpdates_cs_only us r []).2 r3 hst
      simp [db.saveRaftState, hst, hc]
  | cont r3 wb3 =>
      obtain ⟨c, hc⟩ := (stageUpdates_cs_only us r []).1 r3 wb3 hst
      obtain ⟨c2, wb4, hse⟩ := saveEntries_cs_only us r3 wb3
      have hent : r3.entries = r.entries := by rw [hc]
      by_cases hlen : wb4.length > 0
      · by_cases hcf : r3.commitFails
        · simp [db.saveRaftState, hst, hse, hlen, db.commitWriteBatch, hcf, hent]
        · simp [db.saveRaftState, hst, hse, hlen, db.commitWriteBatch, hcf, hent]
      · simp [db.saveRaftState, hst, hse, hlen, hent]

/-- C9: iterateEntries yields an empty successful result — never an
error — when the max-index lookup reports no saved log, and likewise
when the requested range holds no stored entries (empty or fully
compacted range). -/
theorem iterateEntries_empty_range_ok (r : db) (ents : List Entry)
    (size cid nid low high maxSize mi : Nat) :
    (r.cs.getMaxIndex (cid, nid) = none → kvGet r.kvs (.maxIndex cid nid) = none →
      (r.iterateEntries ents size cid nid low high maxSize).2 = .ok (ents, size)) ∧
    (r.getMaxIndex cid nid = (r, .ok mi) →
      entryPairs r.kvs cid nid low (min high (mi + 1)) = [] →
      (r.iterateEntries ents size cid nid low high maxSize).2 = .ok (ents, size)) := by
  constructor
  · intro hmiss hstore
    simp [db.iterateEntries, db.getMaxIndex, hmiss, hstore]
  · intro hmax hpairs
    simp [db.iterateEntries, hmax, plainIterate, hpairs, sortPairs, decodeEntryList,
      budgetLoop]

/-- Witness for C9: a replica with no saved log at all. -/
theorem iterateEntries_empty_range_ok_witness :
    ((openRDB []).iterateEntries [] 0 1 1 1 10 100).2 = .ok ([], 0) :=
  (iterateEntries_empty_range_ok (openRDB []) [] 0 1 1 1 10 100 0).1 rfl rfl

/-- With a well-formed store, saveSnapshot never aborts the process
(the decode of every listed snapshot record succeeds). -/
theorem saveSnapshot_not_panicked (r : db) (wb : List Mutation) (ud : Update)
    (hwf : storeWF r.kvs = true) : r.saveSnapshot wb ud ≠ .panicked := by
  unfold db.saveSnapshot
  by_cases hes : isEmptySnapshot ud.snapshot
  · simp [hes]
  · rw [if_neg (by simpa using hes)]
    unfold db.listSnapshots
    by_cases hio : r.iterateFails
    · simp [hio]
    · have hkinds : ∀ p ∈ sortPairs (snapPairs r.kvs ud.clusterID ud.nodeID maxUint64),
          ∃ ss, p.2 = RValue.snapshot ss := by
        rintro ⟨i, v⟩ hp
        rw [mem_sortPairs] at hp
        obtain ⟨hmem, _⟩ := mem_snapPairs.mp hp
        obtain ⟨ss, hv, _, _⟩ := storeWF_snapshot_value hwf hmem
        exact ⟨ss, hv⟩
      obtain ⟨out, hout⟩ := decodeSnapList_ok_of_kinds hkinds
      simp [hio, hout]

/-- C3: within saveRaftState, an accepted non-empty snapshot together
with a non-empty entry list whose last index is strictly below the
snapshot index aborts the process without touching the store; when the
last entry index is at least the snapshot index no such abort
happens. -/
theorem saveRaftState_fatal_entries_below_snapshot (r : db) (ud : Update) (e : Entry)
    (hlast : ud.entriesToSave.getLast? = some e) :
    (ud.snapshot.index ≠ 0 →
      (alookup r.cs.snapshotM (ud.clusterID, ud.nodeID)).getD 0 < ud.snapshot.index →
      e.index < ud.snapshot.index →
      r.saveRaftState [ud] = (r, .panicked)) ∧
    (ud.snapshot.index ≤ e.index → storeWF r.kvs = true →
      (r.saveRaftState [ud]).2 ≠ .panicked) := by
  constructor
  · intro h0 hacc hlt
    have hstage : stageUpdates r [] [ud] = .panicked := by
      simp only [stageUpdates]
      rw [if_neg (by simp [isEmptySnapshot, h0])]
      have haccept :
          ((((r.saveState ud.clusterID ud.nodeID ud.state []).1).cs.trySaveSnapshot
            (ud.clusterID, ud.nodeID) ud.snapshot.index)).1 = true := by
        unfold cache.trySaveSnapshot
        rw [saveState_snapshotM]
        simp [hacc]
      rw [if_pos haccept]
      rw [if_pos (by simp [entriesBelowSnapshot, hlast, hlt])]
    simp [db.saveRaftState, hstage]
  · intro hle hwf
    have hstage : stageUpdates r [] [ud] ≠ .panicked := by
      obtain ⟨c1, hc1⟩ := saveState_cs_only r ud.clusterID ud.nodeID ud.state []
      simp only [stageUpdates]
      by_cases hes : isEmptySnapshot ud.snapshot
      · simp [hes, stageUpdates]
      · rw [if_neg (by simpa using hes)]
        by_cases hacc2 :
            ((((r.saveState ud.clusterID ud.nodeID ud.state []).1).cs.trySaveSnapshot
              (ud.clusterID, ud.nodeID) ud.snapshot.index)).1 = true
        · rw [if_pos hacc2]
          rw [if_neg (by simp [entriesBelowSnapshot, hlast]; omega)]
          have hwf1 : storeWF
              ({ (r.saveState ud.clusterID ud.nodeID ud.state []).1 with
                cs := (((r.saveState ud.clusterID ud.nodeID ud.state []).1).cs.trySaveSnapshot
                  (ud.clusterID, ud.nodeID) ud.snapshot.index).2 }).kvs = true := by
            have : ((r.saveState ud.clusterID ud.nodeID ud.state []).1).kvs = r.kvs := by
              rw [hc1]
            simpa [this] using hwf
          cases hss : ({ (r.saveState ud.clusterID ud.nodeID ud.state []).1 with
              cs := (((r.saveState ud.clusterID ud.nodeID ud.state []).1).cs.trySaveSnapshot
                (ud.clusterID, ud.nodeID) ud.snapshot.index).2 }).saveSnapshot
              (r.saveState ud.clusterID ud.nodeID ud.state []).2 ud with
          | err e2 => simp [hss]
          | panicked => exact absurd hss (saveSnapshot_not_panicked _ _ _ hwf1)
          | ok wb2 => simp [hss, stageUpdates]
        · rw [if_neg hacc2]
          simp [stageUpdates]
    cases hst : stageUpdates r [] [ud] with
    | panicked => exact absurd hst hstage
    | earlyOk r3 => simp [db.saveRaftState, hst]
    | cont r3 wb3 =>
        simp only [db.saveRaftState, hst]
        obtain ⟨c2, wb4, hse⟩ := saveEntries_cs_only [ud] r3 wb3
        rw [hse]
        by_cases hlen : wb4.length > 0
        · rw [if_pos hlen]
          unfold db.commitWriteBatch
          split <;> simp
        · rw [if_neg hlen]
          simp

/-- Witness for C3: the abort fires on entries below the snapshot and
does not fire otherwise. -/
theorem saveRaftState_fatal_entries_below_snapshot_witness :
    (openRDB []).saveRaftState [udBelow] = (openRDB [], .panicked) ∧
    ((openRDB []).saveRaftState [udAtOrAbove]).2 ≠ .panicked := by
  constructor
  · exact (saveRaftState_fatal_entries_below_snapshot (openRDB []) udBelow ⟨3, 1⟩
      rfl).1 (by decide) (by decide) (by decide)
  · exact (saveRaftState_fatal_entries_below_snapshot (openRDB []) udAtOrAbove ⟨7, 1⟩
      rfl).2 (by decide) (by decide)

theorem applyBatch_append (s : List (RKey × RValue)) (l1 l2 : List Mutation) :
    applyBatch s (l1 ++ l2) = applyBatch (applyBatch s l1) l2 := by
  simp [applyBatch, List.foldl_append]

/-- C4: saving a snapshot with index strictly above every stored
snapshot record of the replica stages, in the one write batch, the
delete of every previously stored record together with the put of the
new one; applying that batch leaves exactly the new snapshot index on
disk for the replica. -/
theorem saveSnapshot_retains_single_snapshot (r : db) (ud : Update)
    (h0 : ud.snapshot.index ≠ 0)
    (hio : r.iterateFails = false)
    (hwf : storeWF r.kvs = true)
    (hhi : ∀ i, hasSnapKey r.kvs ud.clusterID ud.nodeID i = true →
      i < ud.snapshot.index) :
    ∃ wb, r.saveSnapshot [] ud = .ok wb ∧
      (∀ i, hasSnapKey r.kvs ud.clusterID ud.nodeID i = true →
        Mutation.del (.snapshot ud.clusterID ud.nodeID i) ∈ wb) ∧
      Mutation.put (.snapshot ud.clusterID ud.nodeID ud.snapshot.index)
        (.snapshot ud.snapshot) ∈ wb ∧
      (∀ i, hasSnapKey (applyBatch r.kvs wb) ud.clusterID ud.nodeID i = true ↔
        i = ud.snapshot.index) := by
  obtain ⟨out, hout, hcorr⟩ :=
    listSnapshots_ok_of_wf r ud.clusterID ud.nodeID maxUint64 hio hwf
  have hall : ∀ ss ∈ out, ss.index < ud.snapshot.index := by
    intro ss hss
    exact hhi ss.index ((hcorr ss.index).mp ⟨ss, hss, rfl⟩).1
  have hfold := snapshot_foldl_dels ud.snapshot.index ud.clusterID ud.nodeID out []
  have hfm : out.filterMap
        (fun ss => if ss.index < ud.snapshot.index then
          some (Mutation.del (.snapshot ud.clusterID ud.nodeID ss.index)) else none)
      = out.map (fun ss => Mutation.del (.snapshot ud.clusterID ud.nodeID ss.index)) :=
    filterMap_if_all _ _ out hall
  refine ⟨out.map (fun ss => Mutation.del (.snapshot ud.clusterID ud.nodeID ss.index))
      ++ [Mutation.put (.snapshot ud.clusterID ud.nodeID ud.snapshot.index)
        (.snapshot ud.snapshot)], ?_, ?_, ?_, ?_⟩
  · unfold db.saveSnapshot
    rw [if_neg (by simp [isEmptySnapshot, h0])]
    rw [hout]
    simp [hfold, hfm]
  · intro i hkey
    have hb : i ≤ maxUint64 := by
      obtain ⟨v, hv⟩ := hasSnapKey_iff.mp hkey
      obtain ⟨ss, _, _, hb⟩ := storeWF_snapshot_value hwf hv
      exact hb
    obtain ⟨ss, hss, hidx⟩ := (hcorr i).mpr ⟨hkey, hb⟩
    refine List.mem_append_left _ ?_
    rw [← hidx]
    exact List.mem_map_of_mem _ hss
  · exact List.mem_append_right _ (List.mem_singleton.mpr rfl)
  · intro i
    have hsplit : applyBatch r.kvs
        (out.map (fun ss => Mutation.del (.snapshot ud.clusterID ud.nodeID ss.index))
          ++ [Mutation.put (.snapshot ud.clusterID ud.nodeID ud.snapshot.index)
            (.snapshot ud.snapshot)])
        = kvPut (applyBatch r.kvs
            (out.map (fun ss => Mutation.del (.snapshot ud.clusterID ud.nodeID ss.index))))
          (.snapshot ud.clusterID ud.nodeID ud.snapshot.index) (.snapshot ud.snapshot) := by
      rw [applyBatch_append]
      rfl
    rw [hsplit]
    constructor
    · intro hkey
      by_contra hne
      obtain ⟨v, hv⟩ := hasSnapKey_iff.mp hkey
      rw [kvPut] at hv
      rcases List.mem_cons.mp hv with heq | hmemf
      · have : RKey.snapshot ud.clusterID ud.nodeID i
            = RKey.snapshot ud.clusterID ud.nodeID ud.snapshot.index := congrArg Prod.fst heq
        simp at this
        exact hne this
      · have hmemD := (List.mem_filter.mp hmemf).1
        have hks : (RKey.snapshot ud.clusterID ud.nodeID i, v) ∈ r.kvs ∧
            RKey.snapshot ud.clusterID ud.nodeID i ∉
              out.map (fun ss => RKey.snapshot ud.clusterID ud.nodeID ss.index) := by
          have hmm : out.map (fun ss => Mutation.del (.snapshot ud.clusterID ud.nodeID ss.index))
              = (out.map (fun ss => RKey.snapshot ud.clusterID ud.nodeID ss.index)).map
                  Mutation.del := by
            rw [List.map_map]
            rfl
          rw [hmm] at hmemD
          exact (mem_applyBatch_dels _ _ _).mp hmemD
        have hkey0 : hasSnapKey r.kvs ud.clusterID ud.nodeID i = true :=
          hasSnapKey_iff.mpr ⟨v, hks.1⟩
        have hb : i ≤ maxUint64 := by
          obtain ⟨ss, _, _, hb⟩ := storeWF_snapshot_value hwf hks.1
          exact hb
        obtain ⟨ss, hss, hidx⟩ := (hcorr i).mpr ⟨hkey0, hb⟩
        refine hks.2 ?_
        rw [← hidx]
        exact List.mem_map_of_mem _ hss
    · intro hi
      subst hi
      refine hasSnapKey_iff.mpr ⟨.snapshot ud.snapshot, ?_⟩
      rw [kvPut]
      exact List.mem_cons_self _ _

/-- Witness for C4: index 7 over a store holding index 3 stages the
delete of 3 with the put of 7 and retains exactly index 7. -/
theorem saveSnapshot_retains_single_snapshot_witness :
    ∃ wb, (openRDB [(.snapshot 1 1 3, .snapshot ⟨3⟩)]).saveSnapshot [] udC4 = .ok wb ∧
      Mutation.del (.snapshot 1 1 3) ∈ wb ∧
      Mutation.put (.snapshot 1 1 7) (.snapshot ⟨7⟩) ∈ wb ∧
      (∀ i, hasSnapKey (applyBatch [(.snapshot 1 1 3, .snapshot ⟨3⟩)] wb) 1 1 i = true ↔
        i = 7) := by
  obtain ⟨wb, h1, h2, h3, h4⟩ :=
    saveSnapshot_retains_single_snapshot (openRDB [(.snapshot 1 1 3, .snapshot ⟨3⟩)])
      udC4 (by decide) rfl (by decide)
      (by
        intro i h
        simp [hasSnapKey, openRDB, udC4] at h ⊢
        omega)
  exact ⟨wb, h1, h2 3 (by decide), h3, h4⟩

theorem saveRemoveNodeData_as_dels (out : List Snapshot) (cid nid : Nat) :
    saveRemoveNodeData [] out cid nid =
      ([RKey.state cid nid, RKey.bootstrap cid nid, RKey.maxIndex cid nid]
        ++ out.map (fun ss => RKey.snapshot cid nid ss.index)).map Mutation.del := by
  simp [saveRemoveNodeData, List.map_map, Function.comp]

theorem snapshot_keys_all_deleted {r : db} {cid nid : Nat} {out : List Snapshot}
    (hwf : storeWF r.kvs = true)
    (hcorr : ∀ i, (∃ ss ∈ out, ss.index = i) ↔
      hasSnapKey r.kvs cid nid i = true ∧ i ≤ maxUint64)
    {i : Nat} {v : RValue}
    (hmem : (RKey.snapshot cid nid i, v) ∈ r.kvs) :
    RKey.snapshot cid nid i ∈ out.map (fun ss => RKey.snapshot cid nid ss.index) := by
  obtain ⟨ss0, _, _, hb⟩ := storeWF_snapshot_value hwf hmem
  obtain ⟨ss, hss, hidx⟩ := (hcorr i).mpr ⟨hasSnapKey_iff.mpr ⟨v, hmem⟩, hb⟩
  rw [← hidx]
  exact List.mem_map_of_mem _ hss

theorem getState_none {r : db} {cid nid : Nat}
    (h : kvGet r.kvs (.state cid nid) = none) :
    r.getState cid nid = (r, .err .noSavedLog) := by
  simp [db.getState, h]

theorem getBootstrapInfo_none {r : db} {cid nid : Nat}
    (h : kvGet r.kvs (.bootstrap cid nid) = none) :
    r.getBootstrapInfo cid nid = (r, .err .noBootstrapInfo) := by
  simp [db.getBootstrapInfo, h]

theorem getSnapshot_empty {r : db} {cid nid : Nat}
    (hio : r.iterateFails = false)
    (h : snapPairs r.kvs cid nid maxUint64 = []) :
    r.getSnapshot cid nid = (r, .ok { index := 0 }) := by
  simp [db.getSnapshot, db.listSnapshots, hio, h, sortPairs, decodeSnapList]

theorem iterateEntries_unchanged {r : db} {cid nid ents size low high maxSize mi}
    (hmax : r.cs.getMaxIndex (cid, nid) = some mi)
    (h : entryPairs r.kvs cid nid low (min high (mi + 1)) = []) :
    r.iterateEntries ents size cid nid low high maxSize = (r, .ok (ents, size)) := by
  simp [db.iterateEntries, db.getMaxIndex, hmax, plainIterate, h, sortPairs,
    decodeEntryList, budgetLoop]

/-- C8 (amended): after a successful removeNodeData, state and
bootstrap reads answer NotFound, the snapshot read answers the empty
snapshot with a nil error (not NotFound), and entry iteration yields
the caller's accumulators unchanged with no error. -/
theorem removeNodeData_reads_after (r r' : db) (cid nid : Nat) (ents : List Entry)
    (size low high maxSize : Nat)
    (hwf : storeWF r.kvs = true)
    (hok : r.removeNodeData cid nid = (r', .ok ())) :
    (r'.getState cid nid).2 = .err .noSavedLog ∧
    (r'.getBootstrapInfo cid nid).2 = .err .noBootstrapInfo ∧
    (r'.getSnapshot cid nid).2 = .ok { index := 0 } ∧
    (r'.iterateEntries ents size cid nid low high maxSize).2 = .ok (ents, size) := by
  have hio : r.iterateFails = false := by
    by_contra h
    rw [Bool.not_eq_false] at h
    simp [db.removeNodeData, db.listSnapshots, h] at hok
  obtain ⟨out, hout, hcorr⟩ :=
    listSnapshots_ok_of_wf r cid nid maxUint64 hio hwf
  have hcf : r.commitFails = false := by
    by_contra h
    rw [Bool.not_eq_false] at h
    simp [db.removeNodeData, hout, db.commitWriteBatch, h] at hok
  have hbr : r.bulkRemoveFails = false := by
    by_contra h
    rw [Bool.not_eq_false] at h
    simp [db.removeNodeData, hout, db.commitWriteBatch, hcf, db.removeEntriesTo, h] at hok
  have hrw : r.removeNodeData cid nid =
      ({ r with
          kvs := (applyBatch r.kvs (saveRemoveNodeData [] out cid nid)).filter
            (keptAfterEntryRemoval cid nid maxUint64),
          cs := r.cs.setMaxIndex (cid, nid) 0 }, .ok ()) := by
    simp [db.removeNodeData, hout, db.commitWriteBatch, hcf, db.removeEntriesTo, hbr]
  rw [hrw] at hok
  have hX : ({ r with
      kvs := (applyBatch r.kvs (saveRemoveNodeData [] out cid nid)).filter
        (keptAfterEntryRemoval cid nid maxUint64),
      cs := r.cs.setMaxIndex (cid, nid) 0 } : db) = r' := congrArg Prod.fst hok
  have hkvs : r'.kvs = (applyBatch r.kvs (saveRemoveNodeData [] out cid nid)).filter
      (keptAfterEntryRemoval cid nid maxUint64) := by rw [← hX]
  have hcs : r'.cs = r.cs.setMaxIndex (cid, nid) 0 := by rw [← hX]
  have hif : r'.iterateFails = false := by rw [← hX]; exact hio
  have h1 : kvGet r'.kvs (.state cid nid) = none := by
    rw [hkvs, kvGet_eq_none]
    intro v hv
    have hD := (List.mem_filter.mp hv).1
    rw [saveRemoveNodeData_as_dels] at hD
    exact ((mem_applyBatch_dels _ _ _).mp hD).2 (by simp)
  have h2 : kvGet r'.kvs (.bootstrap cid nid) = none := by
    rw [hkvs, kvGet_eq_none]
    intro v hv
    have hD := (List.mem_filter.mp hv).1
    rw [saveRemoveNodeData_as_dels] at hD
    exact ((mem_applyBatch_dels _ _ _).mp hD).2 (by simp)
  have hsp : snapPairs r'.kvs cid nid maxUint64 = [] := by
    rw [hkvs, snapPairs, List.filterMap_eq_nil_iff]
    rintro ⟨k, v⟩ hp
    have hD := (List.mem_filter.mp hp).1
    rw [saveRemoveNodeData_as_dels] at hD
    have hmm := (mem_applyBatch_dels _ _ _).mp hD
    cases k with
    | snapshot c n i =>
        by_cases hc : c = cid ∧ n = nid ∧ i ≤ maxUint64
        · exfalso
          obtain ⟨rfl, rfl, hb⟩ := hc
          exact hmm.2 (by
            simp only [List.mem_append]
            exact Or.inr (snapshot_keys_all_deleted hwf hcorr hmm.1))
        · simp only []
          rw [if_neg hc]
    | entry c n i => rfl
    | state c n => rfl
    | maxIndex c n => rfl
    | bootstrap c n => rfl
  have hc0 : r'.cs.getMaxIndex (cid, nid) = some 0 := by
    rw [hcs]
    simp [cache.getMaxIndex, cache.setMaxIndex, alookup_ainsert]
  have hep : entryPairs r'.kvs cid nid low (min high (0 + 1)) = [] := by
    rw [hkvs, entryPairs, List.filterMap_eq_nil_iff]
    rintro ⟨k, v⟩ hp
    have hf := List.mem_filter.mp hp
    cases k with
    | entry c n i =>
        by_cases hc : c = cid ∧ n = nid ∧ low ≤ i ∧ i < min high (0 + 1)
        · exfalso
          obtain ⟨rfl, rfl, -, -⟩ := hc
          have hgt : ¬ i ≤ maxUint64 := by
            have := hf.2
            simp [keptAfterEntryRemoval] at this
            omega
          have hD := hf.1
          rw [saveRemoveNodeData_as_dels] at hD
          exact hgt (storeWF_entry_bound hwf ((mem_applyBatch_dels _ _ _).mp hD).1)
        · simp only []
          rw [if_neg hc]
    | snapshot c n i => rfl
    | state c n => rfl
    | maxIndex c n => rfl
    | bootstrap c n => rfl
  refine ⟨?_, ?_, ?_, ?_⟩
  · rw [getState_none h1]
  · rw [getBootstrapInfo_none h2]
  · rw [getSnapshot_empty hif hsp]
  · rw [iterateEntries_unchanged hc0 hep]

/-- C8 (counterexample): after a successful removeNodeData, the
snapshot read returns the empty snapshot with a nil error — not the
NotFound error the claim requires. -/
theorem removeNodeData_snapshot_read_ok_cex :
    ((openRDB sC8).removeNodeData 1 1).2 = .ok () ∧
    ((((openRDB sC8).removeNodeData 1 1).1).getSnapshot 1 1).2 = .ok { index := 0 } :=
  ⟨rfl, rfl⟩

/-- Witness for the amended C8 on the concrete store. -/
theorem removeNodeData_reads_after_witness :
    ((((openRDB sC8).removeNodeData 1 1).1).getState 1 1).2 = .err .noSavedLog ∧
    ((((openRDB sC8).removeNodeData 1 1).1).getBootstrapInfo 1 1).2
      = .err .noBootstrapInfo ∧
    ((((openRDB sC8).removeNodeData 1 1).1).iterateEntries [] 0 1 1 1 10 100).2
      = .ok ([], 0) := by
  have h := removeNodeData_reads_after (openRDB sC8)
    ((openRDB sC8).removeNodeData 1 1).1 1 1 [] 0 1 10 100 (by decide) (by rfl)
  exact ⟨h.1, h.2.1, h.2.2.2⟩

/-- C10: removeNodeData is not atomic as a whole — when the trailing
ranged entry deletion fails, the call errors while the metadata batch
is already committed (state, bootstrap, max-index and snapshot records
deleted) and the cached max index already reset, with every entry
record still on disk. -/
theorem removeNodeData_nonatomic_entry_delete_failure (r : db) (cid nid : Nat)
    (hio : r.iterateFails = false) (hcf : r.commitFails = false)
    (hbr : r.bulkRemoveFails = true) (hwf : storeWF r.kvs = true) :
    ∃ r', r.removeNodeData cid nid = (r', .err .storageFailure) ∧
      kvGet r'.kvs (.state cid nid) = none ∧
      kvGet r'.kvs (.bootstrap cid nid) = none ∧
      kvGet r'.kvs (.maxIndex cid nid) = none ∧
      (∀ i v, (RKey.snapshot cid nid i, v) ∉ r'.kvs) ∧
      r'.cs.getMaxIndex (cid, nid) = some 0 ∧
      (∀ c n i v, ((RKey.entry c n i, v) ∈ r'.kvs ↔ (RKey.entry c n i, v) ∈ r.kvs)) := by
  obtain ⟨out, hout, hcorr⟩ :=
    listSnapshots_ok_of_wf r cid nid maxUint64 hio hwf
  refine ⟨{ r with
      kvs := applyBatch r.kvs (saveRemoveNodeData [] out cid nid),
      cs := r.cs.setMaxIndex (cid, nid) 0 }, ?_, ?_, ?_, ?_, ?_, ?_, ?_⟩
  · simp [db.removeNodeData, hout, db.commitWriteBatch, hcf, db.removeEntriesTo, hbr]
  · rw [kvGet_eq_none]
    intro v hv
    simp only [] at hv
    rw [saveRemoveNodeData_as_dels] at hv
    exact ((mem_applyBatch_dels _ _ _).mp hv).2 (by simp)
  · rw [kvGet_eq_none]
    intro v hv
    simp only [] at hv
    rw [saveRemoveNodeData_as_dels] at hv
    exact ((mem_applyBatch_dels _ _ _).mp hv).2 (by simp)
  · rw [kvGet_eq_none]
    intro v hv
    simp only [] at hv
    rw [saveRemoveNodeData_as_dels] at hv
    exact ((mem_applyBatch_dels _ _ _).mp hv).2 (by simp)
  · intro i v hv
    simp only [] at hv
    rw [saveRemoveNodeData_as_dels] at hv
    have hmm := (mem_applyBatch_dels _ _ _).mp hv
    exact hmm.2 (by
      simp only [List.mem_append]
      exact Or.inr (snapshot_keys_all_deleted hwf hcorr hmm.1))
  · simp [cache.getMaxIndex, cache.setMaxIndex, alookup_ainsert]
  · intro c n i v
    simp only []
    rw [saveRemoveNodeData_as_dels, mem_applyBatch_dels]
    constructor
    · exact fun h => h.1
    · intro h
      refine ⟨h, ?_⟩
      simp

/-- Witness for C10 on the concrete store. -/
theorem removeNodeData_nonatomic_witness :
    ∃ r', dbC10.removeNodeData 1 1 = (r', .err .storageFailure) ∧
      kvGet r'.kvs (.state 1 1) = none ∧
      (∀ i v, (RKey.snapshot 1 1 i, v) ∉ r'.kvs) ∧
      r'.cs.getMaxIndex (1, 1) = some 0 ∧
      ((RKey.entry 1 1 3, .entry ⟨3, 10⟩) ∈ r'.kvs ↔
        (RKey.entry 1 1 3, .entry ⟨3, 10⟩) ∈ dbC10.kvs) := by
  obtain ⟨r', h1, h2, h3, h4, h5, h6, h7⟩ :=
    removeNodeData_nonatomic_entry_delete_failure dbC10 1 1 rfl rfl rfl (by decide)
  exact ⟨r', h1, h2, h5, h6, h7 1 1 3 _⟩
